import Mathlib

/-!
# Positional hint transfer and the insert-values batch function

A shallow embedding of `bindinfo/bind.go` (hint collection and binding over a
statement tree) and of `expression/builtin_other_vec.go` (the vectorized entry
points of the "other" built-in functions), with the properties proved about them.

Go slices are lists; a `nil` slice is the empty list.  Position counters are Go
`int`s that count nodes of an in-memory tree, so they are natural numbers here.
-/

namespace bindinfo

/-! ## The syntax tree (package `ast`, an external collaborator) -/

/-- Case-insensitive identifier of the parser (`model.CIStr`): `O` is the text as
written, `L` its lower-case form.  `String()` returns `O`. -/
structure CIStr where
  O : String
  L : String
  deriving DecidableEq, Repr

/-- Text of an identifier, `CIStr.String()`. -/
def CIStr.String (cis : CIStr) : String := cis.O

/-- An optimizer hint of a select-block (`ast.TableOptimizerHint`): its name and
hint-specific parameters, which this package never interprets. -/
structure TableOptimizerHint where
  HintName : CIStr
  Tables : List String
  MaxExecutionTime : Nat
  deriving DecidableEq, Repr

/-- An index hint of a table-reference (`ast.IndexHint`): index names, directive
kind (use / ignore / force) and scope. -/
structure IndexHint where
  IndexNames : List CIStr
  HintType : Nat
  HintScope : Nat
  deriving DecidableEq, Repr

/-- The fields of one syntax-tree node other than its child nodes, by dynamic type:
a `*ast.SelectStmt` with its `TableHints`, a `*ast.TableName` with its
`IndexHints`, or any other node kind (`tag` stands for its type and content). -/
inductive NodeData where
  | SelectStmt (TableHints : List TableOptimizerHint)
  | TableName (IndexHints : List IndexHint)
  | other (tag : Nat)
  deriving DecidableEq, Repr

/-- A syntax-tree node (`ast.Node`): its own fields and its child nodes in the order
in which `Accept` visits them. -/
inductive Node where
  | mk (data : NodeData) (children : List Node)
  deriving Repr

/-- Own fields of a node. -/
def Node.data : Node → NodeData
  | .mk d _ => d

/-- Child nodes of a node, in visiting order. -/
def Node.children : Node → List Node
  | .mk _ cs => cs

/-! ## `bind.go` -/

/-- All hints of a query (`HintsSet`).  The offset in `tableHints` is the traversal
order of `SelectStmt` in the tree, the offset in `indexHints` that of `TableName`. -/
structure HintsSet where
  tableHints : List (List TableOptimizerHint)
  indexHints : List (List IndexHint)
  deriving DecidableEq, Repr

/-- First table hints: `hs.tableHints[0]` when there is a block, `nil` otherwise. -/
def HintsSet.GetFirstTableHints (hs : HintsSet) : List TableOptimizerHint :=
  if hs.tableHints.length > 0 then
    hs.tableHints.getD 0 []
  else
    []

/-- Whether the table hint set contains a hint with the given name: the two nested
`range` loops, returning at the first hint whose `HintName.String()` is `hint`. -/
def HintsSet.ContainTableHint (hs : HintsSet) (hint : String) : Bool :=
  hs.tableHints.any fun tableHintsForBlock =>
    tableHintsForBlock.any fun tableHint =>
      decide (tableHint.HintName.String = hint)

/-- The visitor state (`hintProcessor`): the hints set it points to, the mode flag
(`true` binds hints to the tree, `false` extracts them) and the two counters. -/
structure hintProcessor where
  HintsSet : HintsSet
  bindHint2Ast : Bool
  tableCounter : Nat
  indexCounter : Nat
  deriving DecidableEq, Repr

/-- `hintProcessor.Enter`, on the fields of the node being entered.  Returns the
node's fields after the call, the skip-children flag (always `false`) and the
visitor state after the call. -/
def hintProcessor.Enter (hp : hintProcessor) (v : NodeData) :
    (NodeData × Bool) × hintProcessor :=
  match v with
  | .SelectStmt TableHints =>
    if hp.bindHint2Ast then
      let v1 :=
        if hp.tableCounter < hp.HintsSet.tableHints.length then
          NodeData.SelectStmt (hp.HintsSet.tableHints.getD hp.tableCounter [])
        else
          NodeData.SelectStmt []
      ((v1, false), { hp with tableCounter := hp.tableCounter + 1 })
    else
      ((.SelectStmt TableHints, false),
        { hp with HintsSet :=
            { hp.HintsSet with tableHints := hp.HintsSet.tableHints ++ [TableHints] } })
  | .TableName IndexHints =>
    if hp.bindHint2Ast then
      let v1 :=
        if hp.indexCounter < hp.HintsSet.indexHints.length then
          NodeData.TableName (hp.HintsSet.indexHints.getD hp.indexCounter [])
        else
          NodeData.TableName []
      ((v1, false), { hp with indexCounter := hp.indexCounter + 1 })
    else
      ((.TableName IndexHints, false),
        { hp with HintsSet :=
            { hp.HintsSet with indexHints := hp.HintsSet.indexHints ++ [IndexHints] } })
  | .other tag => ((.other tag, false), hp)

/-- `hintProcessor.Leave`: returns the node unchanged with `ok = true`. -/
def hintProcessor.Leave (hp : hintProcessor) (n : Node) : (Node × Bool) × hintProcessor :=
  ((n, true), hp)

mutual
/-- Modelled from the spec: the `Accept` methods of the parser's node types, which
are not part of this repository.  A node calls `Enter` on itself, then, unless told
to skip, has each child accept the visitor in order (depth-first, left to right),
giving up as soon as a child reports `ok = false`, and finally calls `Leave`. -/
def Node.Accept (v : hintProcessor) : Node → (Node × Bool) × hintProcessor
  | .mk d cs =>
    match v.Enter d with
    | ((d1, true), v1) => v1.Leave (.mk d1 cs)
    | ((d1, false), v1) =>
      match acceptChildren v1 cs with
      | ((cs1, false), v2) => ((.mk d1 cs1, false), v2)
      | ((cs1, true), v2) => v2.Leave (.mk d1 cs1)
/-- The child loop of `Accept`: the children accept the visitor one after the
other; the loop stops at the first child that reports `ok = false`. -/
def acceptChildren (v : hintProcessor) : List Node → (List Node × Bool) × hintProcessor
  | [] => (([], true), v)
  | c :: rest =>
    match c.Accept v with
    | ((c1, false), v1) => ((c1 :: rest, false), v1)
    | ((c1, true), v1) =>
      match acceptChildren v1 rest with
      | ((rest1, ok), v2) => ((c1 :: rest1, ok), v2)
end

/-- `CollectHint`: walks the statement with a fresh extracting processor.  Returns
the collected hints set together with the statement as the walk leaves it. -/
def CollectHint (in_ : Node) : HintsSet × Node :=
  let hp : hintProcessor :=
    { HintsSet := { tableHints := [], indexHints := [] },
      bindHint2Ast := false, tableCounter := 0, indexCounter := 0 }
  match in_.Accept hp with
  | ((n, _), hp1) => (hp1.HintsSet, n)

/-- `BindHint`: walks the statement with a binding processor over `hintsSet`.
Returns the statement after the walk together with the hints set after the walk. -/
def BindHint (stmt : Node) (hintsSet : HintsSet) : Node × HintsSet :=
  let hp : hintProcessor :=
    { HintsSet := hintsSet, bindHint2Ast := true, tableCounter := 0, indexCounter := 0 }
  match stmt.Accept hp with
  | ((n, _), hp1) => (n, hp1.HintsSet)

/-! ## The traversal in the spec's words -/

mutual
/-- Depth-first, left-to-right pre-order listing of the nodes of a tree (their own
fields): the node first, then the listing of each child in order. -/
def Node.preorder : Node → List NodeData
  | .mk d cs => d :: preorderAll cs
/-- Pre-order listing of a sequence of sibling trees. -/
def preorderAll : List Node → List NodeData
  | [] => []
  | c :: rest => c.preorder ++ preorderAll rest
end

/-- The `TableHints` of a node's fields when it is a select-block. -/
def NodeData.tableHints? : NodeData → Option (List TableOptimizerHint)
  | .SelectStmt th => some th
  | _ => none

/-- The `IndexHints` of a node's fields when it is a table-reference. -/
def NodeData.indexHints? : NodeData → Option (List IndexHint)
  | .TableName ih => some ih
  | _ => none

/-- The hint lists of the select-blocks of a tree, in pre-order. -/
def Node.selectBlocks (t : Node) : List (List TableOptimizerHint) :=
  t.preorder.filterMap NodeData.tableHints?

/-- The index-hint lists of the table-references of a tree, in pre-order. -/
def Node.tableRefs (t : Node) : List (List IndexHint) :=
  t.preorder.filterMap NodeData.indexHints?

/-- Number of `SelectStmt` nodes of a tree. -/
def Node.numSelectStmt (t : Node) : Nat :=
  t.preorder.countP fun d => d.tableHints?.isSome

/-- Number of `TableName` nodes of a tree. -/
def Node.numTableName (t : Node) : Nat :=
  t.preorder.countP fun d => d.indexHints?.isSome

/-- Same node kind: both select-blocks, both table-references, or both neither;
hint annotations and other content are not compared. -/
def NodeData.sameKind : NodeData → NodeData → Bool
  | .SelectStmt _, .SelectStmt _ => true
  | .TableName _, .TableName _ => true
  | .other _, .other _ => true
  | _, _ => false

mutual
/-- Identical shape: the same node structure, node for node and child for child in
visiting order, with arbitrary hint annotations on either side. -/
def Node.sameShape : Node → Node → Bool
  | .mk d cs, .mk e es => d.sameKind e && sameShapeAll cs es
/-- Identical shape of two sequences of sibling trees. -/
def sameShapeAll : List Node → List Node → Bool
  | [], [] => true
  | c :: cs, e :: es => c.sameShape e && sameShapeAll cs es
  | _, _ => false
end

/-- Same fields apart from the hint annotation: the same node kind and, for a node
that is neither select-block nor table-reference, the same content. -/
def NodeData.eqButHints : NodeData → NodeData → Bool
  | .SelectStmt _, .SelectStmt _ => true
  | .TableName _, .TableName _ => true
  | .other a, .other b => a == b
  | _, _ => false

mutual
/-- Same tree apart from hint annotations: the same node structure with the same
non-hint content at every node. -/
def Node.eqButHints : Node → Node → Bool
  | .mk d cs, .mk e es => d.eqButHints e && eqButHintsAll cs es
/-- Same sequence of sibling trees apart from hint annotations. -/
def eqButHintsAll : List Node → List Node → Bool
  | [], [] => true
  | c :: cs, e :: es => c.eqButHints e && eqButHintsAll cs es
  | _, _ => false
end

/-- The fields of a node with the hint annotation taken out: what is left is the
node kind and its non-hint content. -/
def NodeData.eraseHints : NodeData → NodeData
  | .SelectStmt _ => .SelectStmt []
  | .TableName _ => .TableName []
  | .other tag => .other tag

/-- Binding one hints set onto several statements, one `BindHint` call after the
other on the same `HintsSet` object: the statements after the calls and the hints
set after the last call. -/
def bindEach (hintsSet : HintsSet) : List Node → List Node × HintsSet
  | [] => ([], hintsSet)
  | stmt :: rest =>
    match BindHint stmt hintsSet with
    | (stmt1, hintsSet1) =>
      match bindEach hintsSet1 rest with
      | (rest1, hintsSet2) => (stmt1 :: rest1, hintsSet2)

/-- Modelled from the spec: the parser handle (`parser.Parser`, an external
collaborator), through its one operation `ParseOneStmt(sql, charset, collation)`,
which gives a statement tree or a parse error. -/
structure Parser where
  ParseOneStmt : String → String → String → Except String Node

/-- `ParseHintsSet`: parses one statement and collects its hints; a parse error is
returned as it is, with no hints set. -/
def ParseHintsSet (p : Parser) (sql charset collation : String) :
    Option HintsSet × Option String :=
  match p.ParseOneStmt sql charset collation with
  | .error err => (none, some err)
  | .ok stmtNode => (some (CollectHint stmtNode).1, none)

/-! ## Example statements -/

/-- A join-algorithm hint. -/
def hintSMJ : TableOptimizerHint := ⟨⟨"TIDB_SMJ", "tidb_smj"⟩, ["t1", "t2"], 0⟩

/-- An execution-time hint. -/
def hintMaxTime : TableOptimizerHint := ⟨⟨"MAX_EXECUTION_TIME", "max_execution_time"⟩, [], 100⟩

/-- A `USE INDEX (idx_a)` hint. -/
def useIdxA : IndexHint := ⟨[⟨"idx_a", "idx_a"⟩], 1, 0⟩

/-- A statement with three select-blocks and two table-references: a hinted select
over a hinted table and an expression holding two sub-selects. -/
def exampleStmt : Node :=
  .mk (.SelectStmt [hintSMJ])
    [.mk (.TableName [useIdxA]) [],
     .mk (.other 1)
       [.mk (.SelectStmt []) [.mk (.TableName []) []],
        .mk (.SelectStmt [hintMaxTime]) []]]

/-- A statement of the same shape as `exampleStmt` with other hints and another
expression. -/
def exampleStmt1 : Node :=
  .mk (.SelectStmt [hintMaxTime, hintSMJ])
    [.mk (.TableName []) [],
     .mk (.other 2)
       [.mk (.SelectStmt [hintSMJ]) [.mk (.TableName [useIdxA]) []],
        .mk (.SelectStmt []) []]]

/-- A hints set with one table-hint block and three index-hint blocks. -/
def exampleHints : HintsSet := ⟨[[hintMaxTime]], [[], [useIdxA], [useIdxA]]⟩

/-- A table hint that has only a name. -/
def namedHint (name : String) : TableOptimizerHint := ⟨⟨name, name.toLower⟩, [], 0⟩

/-- A hints set with the hints `A`, `B` in block 0 and `C` in block 1. -/
def hintsABC : HintsSet := ⟨[[namedHint "A", namedHint "B"], [namedHint "C"]], []⟩

/-- A parser handle that knows one statement text, which it parses to `exampleStmt`,
and rejects every other text. -/
def exampleParser : Parser :=
  ⟨fun sql _ _ =>
    if sql = "select 1" then .ok exampleStmt else .error "syntax error"⟩

end bindinfo

namespace expression

/-! ## Collaborators of `builtin_other_vec.go` -/

/-- A Go `error` value, identified with its message. -/
structure Error where
  msg : String
  deriving DecidableEq, Repr

/-- Decimal text of a Go `int`, as the verbs `%d` and `%v` print it. -/
def fmtInt (i : Int) : String := toString i

/-- Formatting with the verbs `%d` and `%v` over integer operands: each verb is
replaced by the decimal text of the next operand, other characters are copied. -/
def sprintfChars : List Char → List Int → List Char
  | '%' :: 'd' :: rest, a :: as => (fmtInt a).toList ++ sprintfChars rest as
  | '%' :: 'v' :: rest, a :: as => (fmtInt a).toList ++ sprintfChars rest as
  | c :: rest, as => c :: sprintfChars rest as
  | [], _ => []

/-- `errors.Errorf(format, args...)` for integer operands. -/
def errors.Errorf (format : String) (args : List Int) : Error :=
  ⟨String.mk (sprintfChars format.toList args)⟩

/-- `errors.New(message)`. -/
def errors.New (message : String) : Error := ⟨message⟩

/-- How a call ends: it returns a value, or a run-time error (an index out of
range) unwinds it. -/
inductive Exec (α : Type) where
  | ret (a : α)
  | panicked
  deriving DecidableEq, Repr

/-- Modelled from the spec: one column of a batch (`chunk.Column`, not among the
sources): a row count, a null indicator per row (`true` marks a null row) and a
value area.  Columns are pooled, so a column handed in may hold stale rows. -/
structure Column where
  length : Nat
  nullBitmap : List Bool
  data : List Int
  deriving DecidableEq, Repr

/-- Modelled from the spec: `Column.ResizeInt64(n, isNull)` resizes the column to
exactly `n` rows and gives every row the same nullability.  The value area is sized
for `n` rows; with `isNull` the old values that fit are left in place. -/
def Column.ResizeInt64 (c : Column) (n : Nat) (isNull : Bool) : Column :=
  { length := n,
    nullBitmap := List.replicate n isNull,
    data :=
      if isNull then c.data.take n ++ List.replicate (n - c.data.length) 0
      else List.replicate n 0 }

/-- Modelled from the spec: `Column.IsNull(i)` reads the null indicator of row `i`;
there is none to read outside the null bitmap. -/
def Column.IsNull (c : Column) (i : Nat) : Option Bool := c.nullBitmap[i]?

/-- Modelled from the spec: a batch of rows (`chunk.Chunk`): its row count and its
columns. -/
structure Chunk where
  numRows : Nat
  columns : List Column
  deriving DecidableEq, Repr

/-- Row count of a batch, `Chunk.NumRows()`. -/
def Chunk.NumRows (input : Chunk) : Nat := input.numRows

/-- Modelled from the spec: the statement context, of which the code reads the flag
`InInsertStmt`. -/
structure StatementContext where
  InInsertStmt : Bool
  deriving DecidableEq, Repr

/-- Modelled from the spec: the session variables, holding the statement context. -/
structure SessionVars where
  StmtCtx : StatementContext
  deriving DecidableEq, Repr

/-- Modelled from the spec: the session context bound to a function node. -/
structure Context where
  sessionVars : SessionVars
  deriving DecidableEq, Repr

/-- Session variables of a context, `GetSessionVars()`. -/
def Context.GetSessionVars (ctx : Context) : SessionVars := ctx.sessionVars

/-- Modelled from the spec: an argument expression, through the two batch entry
points the code can reach.  Each takes the context, the input batch and the output
column and gives back the column as it leaves it together with the returned error. -/
structure Expression where
  VecEvalInt : Context → Chunk → Column → Column × Option Error
  VecEvalString : Context → Chunk → Column → Column × Option Error

/-- Modelled from the spec: what every function node carries, its bound context and
its argument expressions. -/
structure baseBuiltinFunc where
  ctx : Context
  args : List Expression

/-- Modelled from the spec: the integer insert-values function, with the offset of
its column within the inserted row (a Go `int`). -/
structure builtinValuesIntSig extends baseBuiltinFunc where
  offset : Int

/-- Modelled from the spec: the duration insert-values function. -/
structure builtinValuesDurationSig extends baseBuiltinFunc where
  offset : Int

/-- Modelled from the spec: the row constructor function. -/
structure builtinRowSig extends baseBuiltinFunc

/-- Modelled from the spec: the real insert-values function. -/
structure builtinValuesRealSig extends baseBuiltinFunc where
  offset : Int

/-- Modelled from the spec: the string insert-values function. -/
structure builtinValuesStringSig extends baseBuiltinFunc where
  offset : Int

/-- Modelled from the spec: the time insert-values function. -/
structure builtinValuesTimeSig extends baseBuiltinFunc where
  offset : Int

/-- Modelled from the spec: the JSON insert-values function. -/
structure builtinValuesJSONSig extends baseBuiltinFunc where
  offset : Int

/-- Modelled from the spec: the bit-count function. -/
structure builtinBitCountSig extends baseBuiltinFunc

/-- Modelled from the spec: the prepared-statement parameter function. -/
structure builtinGetParamStringSig extends baseBuiltinFunc

/-- Modelled from the spec: the set-variable function. -/
structure builtinSetVarSig extends baseBuiltinFunc

/-- Modelled from the spec: the decimal insert-values function. -/
structure builtinValuesDecimalSig extends baseBuiltinFunc where
  offset : Int

/-- Modelled from the spec: the get-variable function. -/
structure builtinGetVarSig extends baseBuiltinFunc

/-- Go slice indexing `xs[i]` with an `int` index: outside `0 ≤ i < len(xs)` there
is no element and the program panics. -/
def sliceIndex {α : Type} (xs : List α) (i : Int) : Option α :=
  if i < 0 then none else xs[i.toNat]?

/-! ## `builtin_other_vec.go` -/

/-- `builtinValuesIntSig.vectorized`. -/
def builtinValuesIntSig.vectorized (_b : builtinValuesIntSig) : Bool := true

/-- The scan `for i := 0; i < n; i++` of `vecEvalInt` from row `i` with `k = n - i`
rows to go: `isEmpty` stays `true` unless a row is not null, at which the loop
breaks. -/
def isEmptyFrom (result : Column) (i : Nat) : Nat → Exec Bool
  | 0 => .ret true
  | k + 1 =>
    match result.IsNull i with
    | none => .panicked
    | some false => .ret false
    | some true => isEmptyFrom result (i + 1) k

/-- `builtinValuesIntSig.vecEvalInt`: the returned error (`none` is `nil`) and the
output column as the call leaves it. -/
def builtinValuesIntSig.vecEvalInt (b : builtinValuesIntSig) (input : Chunk)
    (result : Column) : Exec (Option Error × Column) :=
  let n := input.NumRows
  let result := result.ResizeInt64 n true
  if !b.ctx.GetSessionVars.StmtCtx.InInsertStmt then
    .ret (none, result)
  else
    let argLen : Int := b.args.length
    if b.offset >= argLen then
      .ret (some (errors.Errorf
        "Session current insert values len %d and column\x27s offset %v don\x27t match"
        [argLen, b.offset]), result)
    else
      match sliceIndex b.args b.offset with
      | none => .panicked
      | some arg =>
        match arg.VecEvalString b.ctx input result with
        | (result, some err) => .ret (some err, result)
        | (result, none) =>
          match isEmptyFrom result 0 n with
          | .panicked => .panicked
          | .ret isEmpty =>
            if isEmpty then
              .ret (some (errors.New "Session current insert values is nil"), result)
            else
              .ret (none, result)

/-- `builtinValuesDurationSig.vectorized`. -/
def builtinValuesDurationSig.vectorized (_b : builtinValuesDurationSig) : Bool := false

/-- `builtinValuesDurationSig.vecEvalDuration`. -/
def builtinValuesDurationSig.vecEvalDuration (_b : builtinValuesDurationSig)
    (_input : Chunk) (result : Column) : Exec (Option Error × Column) :=
  .ret (some (errors.Errorf "not implemented" []), result)

/-- `builtinRowSig.vectorized`. -/
def builtinRowSig.vectorized (_b : builtinRowSig) : Bool := false

/-- `builtinRowSig.vecEvalString`. -/
def builtinRowSig.vecEvalString (_b : builtinRowSig)
    (_input : Chunk) (result : Column) : Exec (Option Error × Column) :=
  .ret (some (errors.Errorf "not implemented" []), result)

/-- `builtinValuesRealSig.vectorized`. -/
def builtinValuesRealSig.vectorized (_b : builtinValuesRealSig) : Bool := false

/-- `builtinValuesRealSig.vecEvalReal`. -/
def builtinValuesRealSig.vecEvalReal (_b : builtinValuesRealSig)
    (_input : Chunk) (result : Column) : Exec (Option Error × Column) :=
  .ret (some (errors.Errorf "not implemented" []), result)

/-- `builtinValuesStringSig.vectorized`. -/
def builtinValuesStringSig.vectorized (_b : builtinValuesStringSig) : Bool := false

/-- `builtinValuesStringSig.vecEvalString`. -/
def builtinValuesStringSig.vecEvalString (_b : builtinValuesStringSig)
    (_input : Chunk) (result : Column) : Exec (Option Error × Column) :=
  .ret (some (errors.Errorf "not implemented" []), result)

/-- `builtinValuesTimeSig.vectorized`. -/
def builtinValuesTimeSig.vectorized (_b : builtinValuesTimeSig) : Bool := false

/-- `builtinValuesTimeSig.vecEvalTime`. -/
def builtinValuesTimeSig.vecEvalTime (_b : builtinValuesTimeSig)
    (_input : Chunk) (result : Column) : Exec (Option Error × Column) :=
  .ret (some (errors.Errorf "not implemented" []), result)

/-- `builtinValuesJSONSig.vectorized`. -/
def builtinValuesJSONSig.vectorized (_b : builtinValuesJSONSig) : Bool := false

/-- `builtinValuesJSONSig.vecEvalJSON`. -/
def builtinValuesJSONSig.vecEvalJSON (_b : builtinValuesJSONSig)
    (_input : Chunk) (result : Column) : Exec (Option Error × Column) :=
  .ret (some (errors.Errorf "not implemented" []), result)

/-- `builtinBitCountSig.vectorized`. -/
def builtinBitCountSig.vectorized (_b : builtinBitCountSig) : Bool := false

/-- `builtinBitCountSig.vecEvalInt`. -/
def builtinBitCountSig.vecEvalInt (_b : builtinBitCountSig)
    (_input : Chunk) (result : Column) : Exec (Option Error × Column) :=
  .ret (some (errors.Errorf "not implemented" []), result)

/-- `builtinGetParamStringSig.vectorized`. -/
def builtinGetParamStringSig.vectorized (_b : builtinGetParamStringSig) : Bool := false

/-- `builtinGetParamStringSig.vecEvalString`. -/
def builtinGetParamStringSig.vecEvalString (_b : builtinGetParamStringSig)
    (_input : Chunk) (result : Column) : Exec (Option Error × Column) :=
  .ret (some (errors.Errorf "not implemented" []), result)

/-- `builtinSetVarSig.vectorized`. -/
def builtinSetVarSig.vectorized (_b : builtinSetVarSig) : Bool := false

/-- `builtinSetVarSig.vecEvalString`. -/
def builtinSetVarSig.vecEvalString (_b : builtinSetVarSig)
    (_input : Chunk) (result : Column) : Exec (Option Error × Column) :=
  .ret (some (errors.Errorf "not implemented" []), result)

/-- `builtinValuesDecimalSig.vectorized`. -/
def builtinValuesDecimalSig.vectorized (_b : builtinValuesDecimalSig) : Bool := false

/-- `builtinValuesDecimalSig.vecEvalDecimal`. -/
def builtinValuesDecimalSig.vecEvalDecimal (_b : builtinValuesDecimalSig)
    (_input : Chunk) (result : Column) : Exec (Option Error × Column) :=
  .ret (some (errors.Errorf "not implemented" []), result)

/-- `builtinGetVarSig.vectorized`. -/
def builtinGetVarSig.vectorized (_b : builtinGetVarSig) : Bool := false

/-- `builtinGetVarSig.vecEvalString`. -/
def builtinGetVarSig.vecEvalString (_b : builtinGetVarSig)
    (_input : Chunk) (result : Column) : Exec (Option Error × Column) :=
  .ret (some (errors.Errorf "not implemented" []), result)

/-! ## Example function nodes -/

/-- A context inside (`true`) or outside (`false`) an insert statement. -/
def ctxInsert (inInsert : Bool) : Context := ⟨⟨⟨inInsert⟩⟩⟩

/-- An argument whose batch evaluations fill every row with the non-null value `7`. -/
def sevenArg : Expression :=
  { VecEvalInt := fun _ input _ =>
      (⟨input.NumRows, List.replicate input.NumRows false, List.replicate input.NumRows 7⟩,
        none),
    VecEvalString := fun _ input _ =>
      (⟨input.NumRows, List.replicate input.NumRows false, List.replicate input.NumRows 7⟩,
        none) }

/-- A pooled column holding two stale rows. -/
def staleColumn : Column := ⟨2, [false, false], [9, 9]⟩

/-- An argument that is an integer expression: its integer batch evaluation fills
every row with the non-null value `7`, its string batch evaluation fails. -/
def intOnlyArg : Expression :=
  { VecEvalInt := fun _ input _ =>
      (⟨input.NumRows, List.replicate input.NumRows false, List.replicate input.NumRows 7⟩,
        none),
    VecEvalString := fun _ _ result => (result, some ⟨"not a string expression"⟩) }

/-- An argument whose batch evaluations fail with one error. -/
def failingArg : Expression :=
  { VecEvalInt := fun _ _ result => (result, some ⟨"evaluation failed"⟩),
    VecEvalString := fun _ _ result => (result, some ⟨"evaluation failed"⟩) }

end expression

namespace bindinfo

/-! ## Helper lemmas: what one walk does -/

mutual
theorem accept_collect (th : List (List TableOptimizerHint)) (ih : List (List IndexHint))
    (tc ic : Nat) :
    ∀ n : Node, n.Accept ⟨⟨th, ih⟩, false, tc, ic⟩ =
      ((n, true), ⟨⟨th ++ n.selectBlocks, ih ++ n.tableRefs⟩, false, tc, ic⟩)
  | .mk d cs => by
    cases d with
    | SelectStmt hints =>
      simp [Node.Accept, hintProcessor.Enter, hintProcessor.Leave,
        acceptChildren_collect _ _ tc ic cs, Node.selectBlocks, Node.tableRefs,
        Node.preorder, NodeData.tableHints?, NodeData.indexHints?]
    | TableName hints =>
      simp [Node.Accept, hintProcessor.Enter, hintProcessor.Leave,
        acceptChildren_collect _ _ tc ic cs, Node.selectBlocks, Node.tableRefs,
        Node.preorder, NodeData.tableHints?, NodeData.indexHints?]
    | other tag =>
      simp [Node.Accept, hintProcessor.Enter, hintProcessor.Leave,
        acceptChildren_collect _ _ tc ic cs, Node.selectBlocks, Node.tableRefs,
        Node.preorder, NodeData.tableHints?, NodeData.indexHints?]
theorem acceptChildren_collect (th : List (List TableOptimizerHint))
    (ih : List (List IndexHint)) (tc ic : Nat) :
    ∀ cs : List Node, acceptChildren ⟨⟨th, ih⟩, false, tc, ic⟩ cs =
      ((cs, true), ⟨⟨th ++ (preorderAll cs).filterMap NodeData.tableHints?,
        ih ++ (preorderAll cs).filterMap NodeData.indexHints?⟩, false, tc, ic⟩)
  | [] => by
    simp [acceptChildren, preorderAll]
  | c :: rest => by
    simp [acceptChildren, accept_collect _ _ tc ic c,
      acceptChildren_collect _ _ tc ic rest, preorderAll, Node.selectBlocks, Node.tableRefs]
end

/-- Entries `tc`, `tc + 1`, ... of a slice, `a + b` of them, split after `a`. -/
theorem map_range_add {α : Type} (f : Nat → α) (tc a b : Nat) :
    (List.range (a + b)).map (fun i => f (tc + i)) =
      (List.range a).map (fun i => f (tc + i)) ++
        (List.range b).map (fun i => f (tc + a + i)) := by
  rw [List.range_add, List.map_append, List.map_map]
  congr 1
  apply List.map_congr_left
  intro i _
  simp [Nat.add_assoc]

/-- Entries `tc`, `tc + 1`, ... of a slice, `k + 1` of them: the first, then the rest. -/
theorem map_range_succ {α : Type} (f : Nat → α) (tc k : Nat) :
    (List.range (k + 1)).map (fun i => f (tc + i)) =
      f tc :: (List.range k).map (fun i => f (tc + 1 + i)) := by
  rw [List.range_succ_eq_map]
  simp only [List.map_cons, List.map_map, Nat.add_zero]
  congr 1
  apply List.map_congr_left
  intro i _
  simp [Function.comp, Nat.add_assoc, Nat.add_comm 1 i]

/-- In binding mode `Enter` overwrites a select-block's hints with the block at the
table counter (`nil` beyond the end) and advances that counter. -/
theorem enter_bind_select (H : HintsSet) (tc ic : Nat) (hints : List TableOptimizerHint) :
    hintProcessor.Enter ⟨H, true, tc, ic⟩ (.SelectStmt hints) =
      ((.SelectStmt (H.tableHints.getD tc []), false), ⟨H, true, tc + 1, ic⟩) := by
  simp only [hintProcessor.Enter, if_true]
  split
  · rfl
  · rename_i h
    rw [List.getD_eq_default _ _ (Nat.le_of_not_lt h)]

/-- In binding mode `Enter` overwrites a table-reference's index hints with the block
at the index counter (`nil` beyond the end) and advances that counter. -/
theorem enter_bind_table (H : HintsSet) (tc ic : Nat) (hints : List IndexHint) :
    hintProcessor.Enter ⟨H, true, tc, ic⟩ (.TableName hints) =
      ((.TableName (H.indexHints.getD ic []), false), ⟨H, true, tc, ic + 1⟩) := by
  simp only [hintProcessor.Enter, if_true]
  split
  · rfl
  · rename_i h
    rw [List.getD_eq_default _ _ (Nat.le_of_not_lt h)]

mutual
theorem accept_bind (H : HintsSet) :
    ∀ (n : Node) (tc ic : Nat), ∃ n1 : Node,
      n.Accept ⟨H, true, tc, ic⟩ =
        ((n1, true), ⟨H, true, tc + n.numSelectStmt, ic + n.numTableName⟩) ∧
      n1.selectBlocks =
        (List.range n.numSelectStmt).map (fun i => H.tableHints.getD (tc + i) []) ∧
      n1.tableRefs =
        (List.range n.numTableName).map (fun i => H.indexHints.getD (ic + i) []) ∧
      n.eqButHints n1 = true
  | .mk d cs, tc, ic => by
    cases d with
    | SelectStmt hints =>
      obtain ⟨cs1, hrun, hsel, htab, hshape⟩ := acceptChildren_bind H cs (tc + 1) ic
      refine ⟨.mk (.SelectStmt (H.tableHints.getD tc [])) cs1, ?_, ?_, ?_, ?_⟩
      · rw [Node.Accept, enter_bind_select]
        simp only []
        rw [hrun]
        simp [hintProcessor.Leave, Node.numSelectStmt, Node.numTableName,
          Node.preorder, NodeData.tableHints?, NodeData.indexHints?]
        omega
      · simp only [Node.selectBlocks, Node.preorder, Node.numSelectStmt]
        rw [List.filterMap_cons_some (by rfl : NodeData.tableHints? (.SelectStmt _) = some _),
          List.countP_cons_of_pos _ _ (by rfl), hsel]
        exact (map_range_succ (fun j => H.tableHints.getD j []) tc _).symm
      · simp only [Node.tableRefs, Node.preorder, Node.numTableName]
        simp [NodeData.indexHints?, htab]
      · simp [Node.eqButHints, NodeData.eqButHints, hshape]
    | TableName hints =>
      obtain ⟨cs1, hrun, hsel, htab, hshape⟩ := acceptChildren_bind H cs tc (ic + 1)
      refine ⟨.mk (.TableName (H.indexHints.getD ic [])) cs1, ?_, ?_, ?_, ?_⟩
      · rw [Node.Accept, enter_bind_table]
        simp only []
        rw [hrun]
        simp [hintProcessor.Leave, Node.numSelectStmt, Node.numTableName,
          Node.preorder, NodeData.tableHints?, NodeData.indexHints?]
        omega
      · simp only [Node.selectBlocks, Node.preorder, Node.numSelectStmt]
        simp [NodeData.tableHints?, hsel]
      · simp only [Node.tableRefs, Node.preorder, Node.numTableName]
        rw [List.filterMap_cons_some (by rfl : NodeData.indexHints? (.TableName _) = some _),
          List.countP_cons_of_pos _ _ (by rfl), htab]
        exact (map_range_succ (fun j => H.indexHints.getD j []) ic _).symm
      · simp [Node.eqButHints, NodeData.eqButHints, hshape]
    | other tag =>
      obtain ⟨cs1, hrun, hsel, htab, hshape⟩ := acceptChildren_bind H cs tc ic
      refine ⟨.mk (.other tag) cs1, ?_, ?_, ?_, ?_⟩
      · simp only [Node.Accept, hintProcessor.Enter]
        rw [hrun]
        simp [hintProcessor.Leave, Node.numSelectStmt, Node.numTableName,
          Node.preorder, NodeData.tableHints?, NodeData.indexHints?]
      · simp only [Node.selectBlocks, Node.preorder, Node.numSelectStmt]
        simp [NodeData.tableHints?, hsel]
      · simp only [Node.tableRefs, Node.preorder, Node.numTableName]
        simp [NodeData.indexHints?, htab]
      · simp [Node.eqButHints, NodeData.eqButHints, hshape]
theorem acceptChildren_bind (H : HintsSet) :
    ∀ (cs : List Node) (tc ic : Nat), ∃ cs1 : List Node,
      acceptChildren ⟨H, true, tc, ic⟩ cs =
        ((cs1, true), ⟨H, true, tc + (preorderAll cs).countP (fun d => d.tableHints?.isSome),
          ic + (preorderAll cs).countP (fun d => d.indexHints?.isSome)⟩) ∧
      (preorderAll cs1).filterMap NodeData.tableHints? =
        (List.range ((preorderAll cs).countP (fun d => d.tableHints?.isSome))).map
          (fun i => H.tableHints.getD (tc + i) []) ∧
      (preorderAll cs1).filterMap NodeData.indexHints? =
        (List.range ((preorderAll cs).countP (fun d => d.indexHints?.isSome))).map
          (fun i => H.indexHints.getD (ic + i) []) ∧
      eqButHintsAll cs cs1 = true
  | [], tc, ic => by
    refine ⟨[], ?_, ?_, ?_, ?_⟩ <;> simp [acceptChildren, preorderAll, eqButHintsAll]
  | c :: rest, tc, ic => by
    obtain ⟨c1, hc, hcsel, hctab, hcshape⟩ := accept_bind H c tc ic
    obtain ⟨rest1, hr, hrsel, hrtab, hrshape⟩ :=
      acceptChildren_bind H rest (tc + c.numSelectStmt) (ic + c.numTableName)
    refine ⟨c1 :: rest1, ?_, ?_, ?_, ?_⟩
    · rw [acceptChildren, hc]
      simp only []
      rw [hr]
      simp [preorderAll, List.countP_append, Node.numSelectStmt, Node.numTableName,
        Nat.add_assoc]
    · simp only [preorderAll, List.filterMap_append, List.countP_append]
      refine (congrArg₂ (· ++ ·) hcsel hrsel).trans ?_
      exact (map_range_add (fun j => H.tableHints.getD j []) tc _ _).symm
    · simp only [preorderAll, List.filterMap_append, List.countP_append]
      refine (congrArg₂ (· ++ ·) hctab hrtab).trans ?_
      exact (map_range_add (fun j => H.indexHints.getD j []) ic _ _).symm
    · simp [eqButHintsAll, hcshape, hrshape]
end

/-- A list holds as many select-block hint lists as it has select-blocks. -/
theorem selectBlocks_length (t : Node) : t.selectBlocks.length = t.numSelectStmt :=
  List.length_filterMap_eq_countP _ _

/-- A list holds as many index-hint lists as it has table-references. -/
theorem tableRefs_length (t : Node) : t.tableRefs.length = t.numTableName :=
  List.length_filterMap_eq_countP _ _

mutual
theorem sameShape_countP (p : NodeData → Bool)
    (hp : ∀ d e : NodeData, d.sameKind e = true → p d = p e) :
    ∀ n m : Node, n.sameShape m = true → n.preorder.countP p = m.preorder.countP p
  | .mk d cs, .mk e es, h => by
    simp only [Node.sameShape, Bool.and_eq_true] at h
    simp only [Node.preorder, List.countP_cons, sameShapeAll_countP p hp cs es h.2,
      hp d e h.1]
theorem sameShapeAll_countP (p : NodeData → Bool)
    (hp : ∀ d e : NodeData, d.sameKind e = true → p d = p e) :
    ∀ cs es : List Node, sameShapeAll cs es = true →
      (preorderAll cs).countP p = (preorderAll es).countP p
  | [], [], _ => rfl
  | c :: cs, e :: es, h => by
    simp only [sameShapeAll, Bool.and_eq_true] at h
    simp only [preorderAll, List.countP_append, sameShape_countP p hp c e h.1,
      sameShapeAll_countP p hp cs es h.2]
  | [], _ :: _, h => by simp [sameShapeAll] at h
  | _ :: _, [], h => by simp [sameShapeAll] at h
end

/-- Trees of identical shape have the same number of select-blocks. -/
theorem sameShape_numSelectStmt (n m : Node) (h : n.sameShape m = true) :
    n.numSelectStmt = m.numSelectStmt := by
  apply sameShape_countP _ _ n m h
  intro d e hde
  cases d <;> cases e <;> simp_all [NodeData.sameKind, NodeData.tableHints?]

/-- Trees of identical shape have the same number of table-references. -/
theorem sameShape_numTableName (n m : Node) (h : n.sameShape m = true) :
    n.numTableName = m.numTableName := by
  apply sameShape_countP _ _ n m h
  intro d e hde
  cases d <;> cases e <;> simp_all [NodeData.sameKind, NodeData.indexHints?]

/-- What `CollectHint` returns: the pre-order hint lists, and the tree as it was. -/
theorem CollectHint_eq (t : Node) :
    CollectHint t = (⟨t.selectBlocks, t.tableRefs⟩, t) := by
  simp [CollectHint, accept_collect]

/-- What `BindHint` does: position `i` of each kind receives entry `i` of the hints
set (`nil` beyond its end); the tree apart from its hints and the hints set stay as
they were. -/
theorem BindHint_run (t : Node) (H : HintsSet) :
    (BindHint t H).1.selectBlocks =
        (List.range t.numSelectStmt).map (fun i => H.tableHints.getD i []) ∧
      (BindHint t H).1.tableRefs =
        (List.range t.numTableName).map (fun i => H.indexHints.getD i []) ∧
      t.eqButHints (BindHint t H).1 = true ∧ (BindHint t H).2 = H := by
  obtain ⟨n1, hrun, hsel, htab, hshape⟩ := accept_bind H t 0 0
  simp only [Nat.zero_add] at hrun hsel htab
  simp only [BindHint, hrun]
  exact ⟨hsel, htab, hshape, trivial⟩

/-- Reading the first `k` positions of a slice of at least `k` entries gives its
first `k` entries. -/
theorem map_range_getD_of_le {α : Type} (xs : List (List α)) (k : Nat)
    (h : k ≤ xs.length) :
    (List.range k).map (fun i => xs.getD i []) = xs.take k := by
  apply List.ext_getElem?
  intro i
  by_cases hi : i < k
  · simp [List.getElem?_range hi, List.getElem?_take_of_lt hi,
      List.getElem?_eq_getElem (Nat.lt_of_lt_of_le hi h)]
  · have hi1 : k ≤ i := Nat.le_of_not_lt hi
    rw [List.getElem?_eq_none (by simpa using hi1),
      List.getElem?_eq_none (by simp [List.length_take]; omega)]

/-- Reading position `i` of the first `k` positions of a slice. -/
theorem getElem?_map_range_getD {α : Type} (xs : List (List α)) (k i : Nat) (hi : i < k) :
    ((List.range k).map (fun i => xs.getD i []))[i]? = some (xs.getD i []) := by
  simp [List.getElem?_range hi]

/-! ## Hint collection and binding: the properties -/

/-- C1. Positional round trip: for trees `T` and `T1` of identical shape, whatever
hints `T1` carries, collecting from `T`, binding the result onto `T1` and collecting
again gives the same `tableHints` and the same `indexHints` as collecting from `T`. -/
theorem collect_bind_round_trip (T T1 : Node) (h : T.sameShape T1 = true) :
    (CollectHint (BindHint T1 (CollectHint T).1).1).1.tableHints =
        (CollectHint T).1.tableHints ∧
      (CollectHint (BindHint T1 (CollectHint T).1).1).1.indexHints =
        (CollectHint T).1.indexHints := by
  obtain ⟨hsel, htab, -, -⟩ := BindHint_run T1 ⟨T.selectBlocks, T.tableRefs⟩
  rw [CollectHint_eq T]
  simp only []
  rw [CollectHint_eq]
  simp only []
  rw [hsel, htab, ← sameShape_numSelectStmt T T1 h, ← sameShape_numTableName T T1 h]
  constructor
  · rw [map_range_getD_of_le _ _ (Nat.le_of_eq (selectBlocks_length T).symm),
      ← selectBlocks_length T, List.take_length]
  · rw [map_range_getD_of_le _ _ (Nat.le_of_eq (tableRefs_length T).symm),
      ← tableRefs_length T, List.take_length]

/-- C2. `CollectHint` returns one `tableHints` entry per `SelectStmt` and one
`indexHints` entry per `TableName`: entry `i` is the hint list (empty or not) of the
`i`-th such node in depth-first, left-to-right pre-order. -/
theorem CollectHint_preorder (T : Node) :
    (CollectHint T).1.tableHints = T.selectBlocks ∧
      (CollectHint T).1.indexHints = T.tableRefs ∧
      (CollectHint T).1.tableHints.length = T.numSelectStmt ∧
      (CollectHint T).1.indexHints.length = T.numTableName := by
  rw [CollectHint_eq]
  exact ⟨rfl, rfl, selectBlocks_length T, tableRefs_length T⟩

/-- C3. After `BindHint(T, H)` the `i`-th `SelectStmt` in pre-order carries
`H.tableHints[i]` when `i` is within `H.tableHints`, and the `j`-th `TableName`
carries `H.indexHints[j]` when `j` is within `H.indexHints`, each kind counted on
its own.  When the tree has no more positions than `H` has entries, exactly the
leading entries are bound. -/
theorem BindHint_assigns_positions (T : Node) (H : HintsSet) :
    (BindHint T H).1.selectBlocks.length = T.numSelectStmt ∧
      (BindHint T H).1.tableRefs.length = T.numTableName ∧
      (∀ i, i < T.numSelectStmt → i < H.tableHints.length →
        (BindHint T H).1.selectBlocks[i]? = H.tableHints[i]?) ∧
      (∀ j, j < T.numTableName → j < H.indexHints.length →
        (BindHint T H).1.tableRefs[j]? = H.indexHints[j]?) ∧
      (T.numSelectStmt ≤ H.tableHints.length →
        (BindHint T H).1.selectBlocks = H.tableHints.take T.numSelectStmt) ∧
      (T.numTableName ≤ H.indexHints.length →
        (BindHint T H).1.tableRefs = H.indexHints.take T.numTableName) := by
  obtain ⟨hsel, htab, -, -⟩ := BindHint_run T H
  rw [hsel, htab]
  refine ⟨by simp, by simp, ?_, ?_, ?_, ?_⟩
  · intro i hi hlen
    rw [getElem?_map_range_getD _ _ _ hi, List.getD_eq_getElem _ _ hlen,
      List.getElem?_eq_getElem hlen]
  · intro j hj hlen
    rw [getElem?_map_range_getD _ _ _ hj, List.getD_eq_getElem _ _ hlen,
      List.getElem?_eq_getElem hlen]
  · exact map_range_getD_of_le _ _
  · exact map_range_getD_of_le _ _

/-- C4. Mismatch clearing: after `BindHint(T, H)` every select-block at a pre-order
position at or beyond `len(H.tableHints)` has empty `TableHints`, and every
table-reference at or beyond `len(H.indexHints)` has empty `IndexHints`, whatever
they carried before.  A tree with two select-blocks more than `H` has table-hint
blocks ends with its last two select-blocks hint-free. -/
theorem BindHint_clears_excess (T : Node) (H : HintsSet) :
    (∀ i, H.tableHints.length ≤ i → i < T.numSelectStmt →
        (BindHint T H).1.selectBlocks[i]? = some []) ∧
      (∀ j, H.indexHints.length ≤ j → j < T.numTableName →
        (BindHint T H).1.tableRefs[j]? = some []) ∧
      (T.numSelectStmt = H.tableHints.length + 2 →
        (BindHint T H).1.selectBlocks = H.tableHints ++ [[], []]) := by
  obtain ⟨hsel, htab, -, -⟩ := BindHint_run T H
  rw [hsel, htab]
  refine ⟨?_, ?_, ?_⟩
  · intro i hlen hi
    rw [getElem?_map_range_getD _ _ _ hi, List.getD_eq_default _ _ hlen]
  · intro j hlen hj
    rw [getElem?_map_range_getD _ _ _ hj, List.getD_eq_default _ _ hlen]
  · intro hk
    rw [hk, List.range_add, List.map_append,
      map_range_getD_of_le _ _ (Nat.le_refl _), List.take_length]
    have h1 : H.tableHints[H.tableHints.length + 1]? = none :=
      List.getElem?_eq_none (Nat.le_succ _)
    simp [List.range_succ, h1]

/-- C10. `GetFirstTableHints` returns block 0 of `tableHints` when there is one and
the empty list when there is none.  For the hints collected from a tree it is empty
when the tree has no select-block and otherwise is the hint list of the first
select-block in pre-order, empty or not. -/
theorem GetFirstTableHints_spec (hs : HintsSet) (T : Node) :
    (hs.tableHints = [] → hs.GetFirstTableHints = []) ∧
      (∀ b rest, hs.tableHints = b :: rest → hs.GetFirstTableHints = b) ∧
      (T.numSelectStmt = 0 → (CollectHint T).1.GetFirstTableHints = []) ∧
      (0 < T.numSelectStmt →
        some (CollectHint T).1.GetFirstTableHints = T.selectBlocks[0]?) := by
  refine ⟨?_, ?_, ?_, ?_⟩
  · intro h
    simp [HintsSet.GetFirstTableHints, h]
  · intro b rest h
    simp [HintsSet.GetFirstTableHints, h]
  · intro h
    have hlen : T.selectBlocks = [] :=
      List.eq_nil_of_length_eq_zero ((selectBlocks_length T).trans h)
    simp [CollectHint_eq, HintsSet.GetFirstTableHints, hlen]
  · intro h
    rw [← selectBlocks_length T] at h
    rw [CollectHint_eq]
    cases hT : T.selectBlocks with
    | nil => simp [hT] at h
    | cons b rest => simp [HintsSet.GetFirstTableHints]

/-- Witness of C1 on `exampleStmt` and `exampleStmt1`. -/
theorem collect_bind_round_trip_witness :
    exampleStmt.sameShape exampleStmt1 = true ∧
      ((CollectHint (BindHint exampleStmt1 (CollectHint exampleStmt).1).1).1.tableHints =
          (CollectHint exampleStmt).1.tableHints ∧
        (CollectHint (BindHint exampleStmt1 (CollectHint exampleStmt).1).1).1.indexHints =
          (CollectHint exampleStmt).1.indexHints) :=
  ⟨by decide, collect_bind_round_trip exampleStmt exampleStmt1 (by decide)⟩

/-- Witness of C3: the first select-block and the second table-reference of
`exampleStmt` receive entry 0 of the table hints and entry 1 of the index hints. -/
theorem BindHint_assigns_positions_witness :
    (0 < exampleStmt.numSelectStmt ∧ 0 < exampleHints.tableHints.length ∧
        1 < exampleStmt.numTableName ∧ 1 < exampleHints.indexHints.length) ∧
      (BindHint exampleStmt exampleHints).1.selectBlocks[0]? = some [hintMaxTime] ∧
      (BindHint exampleStmt exampleHints).1.tableRefs[1]? = some [useIdxA] :=
  ⟨by decide,
    (BindHint_assigns_positions exampleStmt exampleHints).2.2.1 0 (by decide) (by decide),
    (BindHint_assigns_positions exampleStmt exampleHints).2.2.2.1 1 (by decide)
      (by decide)⟩

/-- Witness of C4: `exampleHints` has one table-hint block and `exampleStmt` three
select-blocks; the last two end hint-free. -/
theorem BindHint_clears_excess_witness :
    exampleStmt.numSelectStmt = exampleHints.tableHints.length + 2 ∧
      (BindHint exampleStmt exampleHints).1.selectBlocks = [[hintMaxTime], [], []] :=
  ⟨by decide, (BindHint_clears_excess exampleStmt exampleHints).2.2 (by decide)⟩

/-- Witness of C10: the first table hints collected from `exampleStmt`. -/
theorem GetFirstTableHints_spec_witness :
    0 < exampleStmt.numSelectStmt ∧
      some (CollectHint exampleStmt).1.GetFirstTableHints = some [hintSMJ] :=
  ⟨by decide, (GetFirstTableHints_spec exampleHints exampleStmt).2.2.2 (by decide)⟩

/-! ## Helper lemmas: trees that differ in hints only -/

/-- Node fields that agree apart from hints have the same kind. -/
theorem NodeData.sameKind_of_eqButHints (d e : NodeData) (h : d.eqButHints e = true) :
    d.sameKind e = true := by
  cases d <;> cases e <;> simp_all [NodeData.eqButHints, NodeData.sameKind]

/-- Node fields that agree apart from hints are equal once the hints are erased. -/
theorem NodeData.eraseHints_of_eqButHints (d e : NodeData) (h : d.eqButHints e = true) :
    d.eraseHints = e.eraseHints := by
  cases d <;> cases e <;> simp_all [NodeData.eqButHints, NodeData.eraseHints]

mutual
theorem sameShape_of_eqButHints :
    ∀ n m : Node, n.eqButHints m = true → n.sameShape m = true
  | .mk d cs, .mk e es, h => by
    simp only [Node.eqButHints, Bool.and_eq_true] at h
    simp only [Node.sameShape, Bool.and_eq_true]
    exact ⟨NodeData.sameKind_of_eqButHints d e h.1, sameShapeAll_of_eqButHintsAll cs es h.2⟩
theorem sameShapeAll_of_eqButHintsAll :
    ∀ cs es : List Node, eqButHintsAll cs es = true → sameShapeAll cs es = true
  | [], [], _ => rfl
  | c :: cs, e :: es, h => by
    simp only [eqButHintsAll, Bool.and_eq_true] at h
    simp only [sameShapeAll, Bool.and_eq_true]
    exact ⟨sameShape_of_eqButHints c e h.1, sameShapeAll_of_eqButHintsAll cs es h.2⟩
  | [], _ :: _, h => by simp [eqButHintsAll] at h
  | _ :: _, [], h => by simp [eqButHintsAll] at h
end

mutual
theorem preorder_erase_of_eqButHints :
    ∀ n m : Node, n.eqButHints m = true →
      n.preorder.map NodeData.eraseHints = m.preorder.map NodeData.eraseHints
  | .mk d cs, .mk e es, h => by
    simp only [Node.eqButHints, Bool.and_eq_true] at h
    simp only [Node.preorder, List.map_cons, NodeData.eraseHints_of_eqButHints d e h.1,
      preorderAll_erase_of_eqButHintsAll cs es h.2]
theorem preorderAll_erase_of_eqButHintsAll :
    ∀ cs es : List Node, eqButHintsAll cs es = true →
      (preorderAll cs).map NodeData.eraseHints = (preorderAll es).map NodeData.eraseHints
  | [], [], _ => rfl
  | c :: cs, e :: es, h => by
    simp only [eqButHintsAll, Bool.and_eq_true] at h
    simp only [preorderAll, List.map_append, preorder_erase_of_eqButHints c e h.1,
      preorderAll_erase_of_eqButHintsAll cs es h.2]
  | [], _ :: _, h => by simp [eqButHintsAll] at h
  | _ :: _, [], h => by simp [eqButHintsAll] at h
end

/-- Binding one hints set onto several statements binds each as if it were alone
and leaves the hints set as it was. -/
theorem bindEach_eq (H : HintsSet) :
    ∀ Ts : List Node, bindEach H Ts = (Ts.map (fun t => (BindHint t H).1), H)
  | [] => rfl
  | t :: rest => by
    have hH : (BindHint t H).2 = H := (BindHint_run t H).2.2.2
    have ht : BindHint t H = ((BindHint t H).1, H) := Prod.ext rfl hH
    rw [bindEach, ht]
    simp only []
    rw [bindEach_eq H rest]
    simp

/-! ## Hint lookup, parsing and frame properties -/

/-- C11. `ContainTableHint(hs, name)` is true exactly when some hint in some block
of `hs.tableHints` has `HintName.String()` equal to `name`, compared as strings (so
with regard to case).  With `A`, `B` in block 0 and `C` in block 1 it is true for
`"B"` and `"C"` and false for `"D"` and for `"b"`. -/
theorem ContainTableHint_iff (hs : HintsSet) (name : String) :
    (hs.ContainTableHint name = true ↔
        ∃ block ∈ hs.tableHints, ∃ hint ∈ block, hint.HintName.String = name) ∧
      (hintsABC.ContainTableHint "B" = true ∧ hintsABC.ContainTableHint "C" = true ∧
        hintsABC.ContainTableHint "D" = false ∧ hintsABC.ContainTableHint "b" = false) := by
  constructor
  · simp [HintsSet.ContainTableHint, List.any_eq_true]
  · decide

/-- C12. `ParseHintsSet` returns no hints set and exactly the parser's error when
parsing fails, and the hints collected from the parsed statement with no error when
parsing succeeds; it returns an error exactly when the parser does. -/
theorem ParseHintsSet_spec (p : Parser) (sql charset collation : String) :
    (∀ err, p.ParseOneStmt sql charset collation = .error err →
        ParseHintsSet p sql charset collation = (none, some err)) ∧
      (∀ stmt, p.ParseOneStmt sql charset collation = .ok stmt →
        ParseHintsSet p sql charset collation = (some (CollectHint stmt).1, none)) ∧
      ((ParseHintsSet p sql charset collation).2.isSome = true ↔
        ∃ err, p.ParseOneStmt sql charset collation = .error err) := by
  refine ⟨?_, ?_, ?_⟩
  · intro err h
    simp [ParseHintsSet, h]
  · intro stmt h
    simp [ParseHintsSet, h]
  · cases h : p.ParseOneStmt sql charset collation with
    | error err => simp [ParseHintsSet, h]
    | ok stmt => simp [ParseHintsSet, h]

/-- C13. `BindHint` only reads the hints set: after `BindHint(T, H)` the hints set
is `H`, with the same `tableHints` and `indexHints`; a later bind onto any tree gives
what it gives on `H`, and binding `H` onto a sequence of trees binds each of them as
if it were the only one. -/
theorem BindHint_reads_only (T : Node) (H : HintsSet) :
    (BindHint T H).2 = H ∧
      (BindHint T H).2.tableHints = H.tableHints ∧
      (BindHint T H).2.indexHints = H.indexHints ∧
      (∀ T2 : Node, BindHint T2 (BindHint T H).2 = BindHint T2 H) ∧
      (∀ Ts : List Node, bindEach H Ts = (Ts.map (fun t => (BindHint t H).1), H)) := by
  have hH : (BindHint T H).2 = H := (BindHint_run T H).2.2.2
  refine ⟨hH, by rw [hH], by rw [hH], ?_, bindEach_eq H⟩
  intro T2
  rw [hH]

/-- C14. `CollectHint` leaves the tree it walks as it was, with every select-block's
`TableHints` and every table-reference's `IndexHints`, and a second call on the tree
returns the same hints set as the first. -/
theorem CollectHint_leaves_tree (T : Node) :
    (CollectHint T).2 = T ∧
      (CollectHint T).2.selectBlocks = T.selectBlocks ∧
      (CollectHint T).2.tableRefs = T.tableRefs ∧
      (CollectHint (CollectHint T).2).1 = (CollectHint T).1 := by
  have h : (CollectHint T).2 = T := by rw [CollectHint_eq]
  refine ⟨h, by rw [h], by rw [h], by rw [h]⟩

/-- C20. `BindHint` changes nothing but hint annotations: the tree after the call
has the node structure and the non-hint content of the tree before, node for node,
hence the same pre-order sequence of node kinds and the same numbers of select-blocks
and table-references, so that collecting from it gives as many table-hint and
index-hint blocks as collecting from the tree before. -/
theorem BindHint_changes_hints_only (T : Node) (H : HintsSet) :
    T.eqButHints (BindHint T H).1 = true ∧
      T.sameShape (BindHint T H).1 = true ∧
      (BindHint T H).1.preorder.map NodeData.eraseHints =
        T.preorder.map NodeData.eraseHints ∧
      (BindHint T H).1.numSelectStmt = T.numSelectStmt ∧
      (BindHint T H).1.numTableName = T.numTableName ∧
      (CollectHint (BindHint T H).1).1.tableHints.length =
        (CollectHint T).1.tableHints.length ∧
      (CollectHint (BindHint T H).1).1.indexHints.length =
        (CollectHint T).1.indexHints.length := by
  have heq : T.eqButHints (BindHint T H).1 = true := (BindHint_run T H).2.2.1
  have hshape := sameShape_of_eqButHints _ _ heq
  have hsel := (sameShape_numSelectStmt _ _ hshape).symm
  have htab := (sameShape_numTableName _ _ hshape).symm
  refine ⟨heq, hshape, (preorder_erase_of_eqButHints _ _ heq).symm, hsel, htab, ?_, ?_⟩
  · rw [CollectHint_eq, CollectHint_eq]
    simp only [selectBlocks_length, hsel]
  · rw [CollectHint_eq, CollectHint_eq]
    simp only [tableRefs_length, htab]

/-- Witness of C12: the example parser accepts `select 1` and rejects `selec`. -/
theorem ParseHintsSet_spec_witness :
    ParseHintsSet exampleParser "select 1" "utf8" "utf8_bin" =
        (some (CollectHint exampleStmt).1, none) ∧
      ParseHintsSet exampleParser "selec" "utf8" "utf8_bin" = (none, some "syntax error") :=
  ⟨(ParseHintsSet_spec exampleParser "select 1" "utf8" "utf8_bin").2.1 exampleStmt
      (by simp [exampleParser]),
    (ParseHintsSet_spec exampleParser "selec" "utf8" "utf8_bin").1 "syntax error"
      (by simp [exampleParser])⟩

end bindinfo

namespace expression

/-! ## Helper lemmas: formatting and the null scan -/

/-- The characters `Errorf` produces for the offset-mismatch format. -/
theorem sprintfChars_offset (a b : Int) :
    sprintfChars
        "Session current insert values len %d and column\x27s offset %v don\x27t match".toList
        [a, b] =
      "Session current insert values len ".toList ++ ((fmtInt a).toList ++
        (" and column\x27s offset ".toList ++ ((fmtInt b).toList ++
          " don\x27t match".toList))) := by
  rfl

/-- The offset-mismatch message names the argument count and the offset. -/
theorem Errorf_offset (a b : Int) :
    errors.Errorf
        "Session current insert values len %d and column\x27s offset %v don\x27t match"
        [a, b] =
      ⟨"Session current insert values len " ++ fmtInt a ++ " and column\x27s offset " ++
        fmtInt b ++ " don\x27t match"⟩ := by
  unfold errors.Errorf
  rw [sprintfChars_offset]
  congr 1
  apply String.ext
  simp [String.data_append]

/-- The scan ends with `isEmpty = true` exactly when every scanned row is null. -/
theorem isEmptyFrom_true_iff (r : Column) :
    ∀ (k i : Nat), isEmptyFrom r i k = .ret true ↔
      ∀ j, j < k → r.IsNull (i + j) = some true
  | 0, i => by simp [isEmptyFrom]
  | k + 1, i => by
    rw [isEmptyFrom]
    constructor
    · intro h j hj
      cases hn : r.IsNull i with
      | none => simp [hn] at h
      | some v =>
        cases v with
        | false => simp [hn] at h
        | true =>
          simp only [hn] at h
          cases j with
          | zero => simpa using hn
          | succ j =>
            have := (isEmptyFrom_true_iff r k (i + 1)).1 h j (by omega)
            rwa [Nat.add_assoc, Nat.add_comm 1 j] at this
    · intro h
      have h0 : r.IsNull i = some true := by simpa using h 0 (by omega)
      simp only [h0]
      apply (isEmptyFrom_true_iff r k (i + 1)).2
      intro j hj
      have := h (j + 1) (by omega)
      rwa [Nat.add_assoc, Nat.add_comm 1 j]

/-- The scan ends with `isEmpty = false` as soon as some scanned row is not null. -/
theorem isEmptyFrom_false_of_exists (r : Column) :
    ∀ (k i : Nat), (∃ j, j < k ∧ r.IsNull (i + j) = some false) →
      isEmptyFrom r i k = .ret false
  | 0, i => by
    rintro ⟨j, hj, -⟩
    omega
  | k + 1, i => by
    rintro ⟨j, hj, hnull⟩
    rw [isEmptyFrom]
    cases hn : r.IsNull i with
    | none =>
      exfalso
      have hlen : r.nullBitmap.length ≤ i := by
        simpa [Column.IsNull, List.getElem?_eq_none_iff] using hn
      have : r.IsNull (i + j) = none := by
        simp only [Column.IsNull]
        exact List.getElem?_eq_none (by omega)
      rw [this] at hnull
      cases hnull
    | some v =>
      cases v with
      | false => rfl
      | true =>
        simp only []
        apply isEmptyFrom_false_of_exists r k (i + 1)
        cases j with
        | zero =>
          rw [Nat.add_zero, hn] at hnull
          cases hnull
        | succ j =>
          refine ⟨j, by omega, ?_⟩
          rwa [Nat.add_assoc, Nat.add_comm 1 j]

/-- An in-range slice index names a position of the slice. -/
theorem sliceIndex_some {α : Type} (xs : List α) (i : Int) (a : α)
    (h : sliceIndex xs i = some a) : 0 ≤ i ∧ i < xs.length ∧ a ∈ xs := by
  unfold sliceIndex at h
  split at h
  · cases h
  · rename_i hneg
    have hlt : i.toNat < xs.length := by
      by_contra hge
      rw [List.getElem?_eq_none (Nat.le_of_not_lt hge)] at h
      cases h
    refine ⟨by omega, by omega, ?_⟩
    rw [List.getElem?_eq_getElem hlt] at h
    cases h
    exact List.getElem_mem hlt

/-! ## The insert-values function and the stubs: the properties -/

/-- C5. Outside an insert statement `vecEvalInt` returns `nil` and leaves the result
column with exactly `n` rows, all null, for every offset and every argument list:
neither the offset nor any argument takes part in the outcome. -/
theorem vecEvalInt_outside_insert (b : builtinValuesIntSig) (input : Chunk)
    (result : Column) (h : b.ctx.GetSessionVars.StmtCtx.InInsertStmt = false) :
    b.vecEvalInt input result = .ret (none, result.ResizeInt64 input.NumRows true) ∧
      (result.ResizeInt64 input.NumRows true).length = input.NumRows ∧
      (result.ResizeInt64 input.NumRows true).nullBitmap.length = input.NumRows ∧
      (∀ i, i < input.NumRows →
        (result.ResizeInt64 input.NumRows true).IsNull i = some true) ∧
      (∀ (args1 : List Expression) (offset1 : Int),
        builtinValuesIntSig.vecEvalInt ⟨⟨b.ctx, args1⟩, offset1⟩ input result =
          b.vecEvalInt input result) := by
  refine ⟨?_, rfl, ?_, ?_, ?_⟩
  · simp [builtinValuesIntSig.vecEvalInt, h]
  · simp [Column.ResizeInt64]
  · intro i hi
    simp [Column.ResizeInt64, Column.IsNull, List.getElem?_replicate, hi]
  · intro args1 offset1
    simp [builtinValuesIntSig.vecEvalInt, h]

/-- C6. In an insert statement with `offset >= len(args)`, `vecEvalInt` fails with
the offset-mismatch error, whose message holds the argument count and the offset,
and the outcome is the same for every argument list of that length: no argument is
evaluated. -/
theorem vecEvalInt_offset_mismatch (b : builtinValuesIntSig) (input : Chunk)
    (result : Column) (h : b.ctx.GetSessionVars.StmtCtx.InInsertStmt = true)
    (hoff : b.offset ≥ (b.args.length : Int)) :
    b.vecEvalInt input result =
        .ret (some ⟨"Session current insert values len " ++ fmtInt b.args.length ++
            " and column\x27s offset " ++ fmtInt b.offset ++ " don\x27t match"⟩,
          result.ResizeInt64 input.NumRows true) ∧
      (∀ args1 : List Expression, args1.length = b.args.length →
        builtinValuesIntSig.vecEvalInt ⟨⟨b.ctx, args1⟩, b.offset⟩ input result =
          b.vecEvalInt input result) := by
  constructor
  · simp [builtinValuesIntSig.vecEvalInt, h, hoff, Errorf_offset]
  · intro args1 hlen
    simp [builtinValuesIntSig.vecEvalInt, h, hoff, hlen]

/-- C7. In an insert statement, with the offset in range (so that `args[offset]` is
`arg`) and the evaluation of `arg` into the result column succeeding with column
`result1`, `vecEvalInt` returns the error "Session current insert values is nil"
exactly when every one of the `n` rows of `result1` is null, and returns `nil` when
some row is not null. -/
theorem vecEvalInt_nil_iff_all_null (b : builtinValuesIntSig) (input : Chunk)
    (result : Column) (arg : Expression) (result1 : Column)
    (h : b.ctx.GetSessionVars.StmtCtx.InInsertStmt = true)
    (harg : sliceIndex b.args b.offset = some arg)
    (heval : arg.VecEvalString b.ctx input (result.ResizeInt64 input.NumRows true) =
      (result1, none)) :
    ((∃ out, b.vecEvalInt input result =
          .ret (some (errors.New "Session current insert values is nil"), out)) ↔
        ∀ i, i < input.NumRows → result1.IsNull i = some true) ∧
      ((∃ i, i < input.NumRows ∧ result1.IsNull i = some false) →
        b.vecEvalInt input result = .ret (none, result1)) := by
  obtain ⟨h0, hlt, -⟩ := sliceIndex_some _ _ _ harg
  have hnot : ¬ b.offset ≥ (b.args.length : Int) := by omega
  have hrun : b.vecEvalInt input result =
      match isEmptyFrom result1 0 input.NumRows with
      | .panicked => .panicked
      | .ret isEmpty =>
        if isEmpty then
          .ret (some (errors.New "Session current insert values is nil"), result1)
        else
          .ret (none, result1) := by
    simp only [builtinValuesIntSig.vecEvalInt, h, hnot, harg, heval]
    simp
  have hiff := isEmptyFrom_true_iff result1 input.NumRows 0
  simp only [Nat.zero_add] at hiff
  constructor
  · rw [← hiff, hrun]
    cases hscan : isEmptyFrom result1 0 input.NumRows with
    | panicked => simp
    | ret v => cases v <;> simp
  · intro hex
    have hfalse := isEmptyFrom_false_of_exists result1 input.NumRows 0
      (by simpa using hex)
    rw [hrun, hfalse]
    simp

/-- C8. Batch sizing invariant: when the batch evaluation of every argument leaves,
on success, a column of exactly `n` rows with a null flag for each, a successful
`vecEvalInt` leaves the output column with exactly `n` rows and a defined null flag
for every row, whatever the column held before. -/
theorem vecEvalInt_sizing (b : builtinValuesIntSig) (input : Chunk)
    (result out : Column)
    (hcontract : ∀ arg ∈ b.args, ∀ col col1 : Column,
      (arg.VecEvalString b.ctx input col = (col1, none) ∨
        arg.VecEvalInt b.ctx input col = (col1, none)) →
      col1.length = input.NumRows ∧ col1.nullBitmap.length = input.NumRows)
    (hok : b.vecEvalInt input result = .ret (none, out)) :
    out.length = input.NumRows ∧
      ∀ i, i < input.NumRows → ∃ flag, out.IsNull i = some flag := by
  have key : out.length = input.NumRows ∧ out.nullBitmap.length = input.NumRows := by
    unfold builtinValuesIntSig.vecEvalInt at hok
    simp only [] at hok
    split at hok
    · cases hok
      simp [Column.ResizeInt64]
    · split at hok
      · cases hok
      · split at hok
        · cases hok
        · rename_i arg harg
          obtain ⟨-, -, hmem⟩ := sliceIndex_some _ _ _ harg
          split at hok
          · cases hok
          · rename_i col1 heval
            split at hok
            · cases hok
            · split at hok
              · cases hok
              · cases hok
                exact hcontract arg hmem _ _ (Or.inl heval)
  refine ⟨key.1, ?_⟩
  intro i hi
  refine ⟨out.nullBitmap.get ⟨i, by omega⟩, ?_⟩
  simp [Column.IsNull, List.getElem?_eq_getElem, key.2, hi]

/-- C9. Fallback safety: each of the eleven signatures whose `vectorized()` is
`false` answers its batch entry point with the "not implemented" error for every
batch and every output column and leaves the column as it was; `vectorized()` is a
constant, `true` for `builtinValuesIntSig` alone. -/
theorem stubs_not_implemented (input : Chunk) (result : Column) :
    (∀ b : builtinValuesDurationSig, b.vectorized = false ∧
        b.vecEvalDuration input result = .ret (some ⟨"not implemented"⟩, result)) ∧
      (∀ b : builtinRowSig, b.vectorized = false ∧
        b.vecEvalString input result = .ret (some ⟨"not implemented"⟩, result)) ∧
      (∀ b : builtinValuesRealSig, b.vectorized = false ∧
        b.vecEvalReal input result = .ret (some ⟨"not implemented"⟩, result)) ∧
      (∀ b : builtinValuesStringSig, b.vectorized = false ∧
        b.vecEvalString input result = .ret (some ⟨"not implemented"⟩, result)) ∧
      (∀ b : builtinValuesTimeSig, b.vectorized = false ∧
        b.vecEvalTime input result = .ret (some ⟨"not implemented"⟩, result)) ∧
      (∀ b : builtinValuesJSONSig, b.vectorized = false ∧
        b.vecEvalJSON input result = .ret (some ⟨"not implemented"⟩, result)) ∧
      (∀ b : builtinBitCountSig, b.vectorized = false ∧
        b.vecEvalInt input result = .ret (some ⟨"not implemented"⟩, result)) ∧
      (∀ b : builtinGetParamStringSig, b.vectorized = false ∧
        b.vecEvalString input result = .ret (some ⟨"not implemented"⟩, result)) ∧
      (∀ b : builtinSetVarSig, b.vectorized = false ∧
        b.vecEvalString input result = .ret (some ⟨"not implemented"⟩, result)) ∧
      (∀ b : builtinValuesDecimalSig, b.vectorized = false ∧
        b.vecEvalDecimal input result = .ret (some ⟨"not implemented"⟩, result)) ∧
      (∀ b : builtinGetVarSig, b.vectorized = false ∧
        b.vecEvalString input result = .ret (some ⟨"not implemented"⟩, result)) ∧
      (∀ b : builtinValuesIntSig, b.vectorized = true) := by
  have hmsg : errors.Errorf "not implemented" [] = ⟨"not implemented"⟩ := by decide
  refine ⟨?_, ?_, ?_, ?_, ?_, ?_, ?_, ?_, ?_, ?_, ?_, ?_⟩
  · intro b
    exact ⟨rfl, by rw [builtinValuesDurationSig.vecEvalDuration, hmsg]⟩
  · intro b
    exact ⟨rfl, by rw [builtinRowSig.vecEvalString, hmsg]⟩
  · intro b
    exact ⟨rfl, by rw [builtinValuesRealSig.vecEvalReal, hmsg]⟩
  · intro b
    exact ⟨rfl, by rw [builtinValuesStringSig.vecEvalString, hmsg]⟩
  · intro b
    exact ⟨rfl, by rw [builtinValuesTimeSig.vecEvalTime, hmsg]⟩
  · intro b
    exact ⟨rfl, by rw [builtinValuesJSONSig.vecEvalJSON, hmsg]⟩
  · intro b
    exact ⟨rfl, by rw [builtinBitCountSig.vecEvalInt, hmsg]⟩
  · intro b
    exact ⟨rfl, by rw [builtinGetParamStringSig.vecEvalString, hmsg]⟩
  · intro b
    exact ⟨rfl, by rw [builtinSetVarSig.vecEvalString, hmsg]⟩
  · intro b
    exact ⟨rfl, by rw [builtinValuesDecimalSig.vecEvalDecimal, hmsg]⟩
  · intro b
    exact ⟨rfl, by rw [builtinGetVarSig.vecEvalString, hmsg]⟩
  · intro b
    rfl

/-- Witness of C5: a 5-row batch outside an insert statement yields 5 null rows. -/
theorem vecEvalInt_outside_insert_witness :
    (ctxInsert false).GetSessionVars.StmtCtx.InInsertStmt = false ∧
      builtinValuesIntSig.vecEvalInt ⟨⟨ctxInsert false, [sevenArg]⟩, 3⟩ ⟨5, []⟩ staleColumn =
        .ret (none, ⟨5, [true, true, true, true, true], [9, 9, 0, 0, 0]⟩) :=
  ⟨rfl, (vecEvalInt_outside_insert ⟨⟨ctxInsert false, [sevenArg]⟩, 3⟩ ⟨5, []⟩ staleColumn
    rfl).1⟩

/-- Witness of C6: offset 3 against one supplied value expression. -/
theorem vecEvalInt_offset_mismatch_witness :
    (ctxInsert true).GetSessionVars.StmtCtx.InInsertStmt = true ∧
      builtinValuesIntSig.vecEvalInt ⟨⟨ctxInsert true, [sevenArg]⟩, 3⟩ ⟨2, []⟩ staleColumn =
        .ret (some
          ⟨"Session current insert values len 1 and column\x27s offset 3 don\x27t match"⟩,
          ⟨2, [true, true], [9, 9]⟩) :=
  ⟨rfl, (vecEvalInt_offset_mismatch ⟨⟨ctxInsert true, [sevenArg]⟩, 3⟩ ⟨2, []⟩ staleColumn
    rfl (by decide)).1⟩

/-- Witness of C7: the argument at offset 0 fills two non-null rows, and the call
succeeds. -/
theorem vecEvalInt_nil_iff_all_null_witness :
    builtinValuesIntSig.vecEvalInt ⟨⟨ctxInsert true, [sevenArg]⟩, 0⟩ ⟨2, []⟩ staleColumn =
      .ret (none, ⟨2, [false, false], [7, 7]⟩) :=
  (vecEvalInt_nil_iff_all_null ⟨⟨ctxInsert true, [sevenArg]⟩, 0⟩ ⟨2, []⟩ staleColumn
    sevenArg ⟨2, [false, false], [7, 7]⟩ rfl rfl rfl).2 ⟨0, by decide, rfl⟩

/-- Witness of C8: the successful call of the C7 witness leaves two rows. -/
theorem vecEvalInt_sizing_witness :
    (⟨2, [false, false], [7, 7]⟩ : Column).length = (⟨2, []⟩ : Chunk).NumRows :=
  (vecEvalInt_sizing ⟨⟨ctxInsert true, [sevenArg]⟩, 0⟩ ⟨2, []⟩ staleColumn
    ⟨2, [false, false], [7, 7]⟩
    (by
      intro arg harg col col1 h
      have : arg = sevenArg := by simpa using harg
      subst this
      rcases h with h | h <;>
        · cases h
          simp [Chunk.NumRows])
    rfl).1

/-! ## Helper lemmas: the paths through `vecEvalInt` -/

/-- The scan ends with `isEmpty = false` only at a row that is not null. -/
theorem exists_of_isEmptyFrom_false (r : Column) :
    ∀ (k i : Nat), isEmptyFrom r i k = .ret false →
      ∃ j, j < k ∧ r.IsNull (i + j) = some false
  | 0, i => by
    intro h
    simp [isEmptyFrom] at h
  | k + 1, i => by
    intro h
    rw [isEmptyFrom] at h
    cases hn : r.IsNull i with
    | none => simp [hn] at h
    | some v =>
      cases v with
      | false => exact ⟨0, by omega, by simpa using hn⟩
      | true =>
        simp only [hn] at h
        obtain ⟨j, hj, hnull⟩ := exists_of_isEmptyFrom_false r k (i + 1) h
        refine ⟨j + 1, by omega, ?_⟩
        rwa [Nat.add_assoc, Nat.add_comm 1 j] at hnull

/-- The offset-mismatch message is never the absent-values message. -/
theorem Errorf_offset_ne_nil (a b : Int) :
    errors.Errorf
        "Session current insert values len %d and column\x27s offset %v don\x27t match"
        [a, b] ≠ errors.New "Session current insert values is nil" := by
  intro h
  have hdata := congrArg (fun e : Error => e.msg.data.take 31) h
  have h1 : (errors.Errorf
      "Session current insert values len %d and column\x27s offset %v don\x27t match"
      [a, b]).msg.data.take 31 = "Session current insert values l".toList := rfl
  have h2 : (errors.New "Session current insert values is nil").msg.data.take 31 =
      "Session current insert values i".toList := by decide
  simp only [h1, h2] at hdata
  exact absurd hdata (by decide)

/-- In an insert statement with `args[offset]` in range, `vecEvalInt` is the string
batch evaluation of that argument followed by the null scan. -/
theorem vecEvalInt_in_range (b : builtinValuesIntSig) (input : Chunk) (result : Column)
    (arg : Expression) (h : b.ctx.GetSessionVars.StmtCtx.InInsertStmt = true)
    (harg : sliceIndex b.args b.offset = some arg) :
    b.vecEvalInt input result =
      match arg.VecEvalString b.ctx input (result.ResizeInt64 input.NumRows true) with
      | (result1, some err) => .ret (some err, result1)
      | (result1, none) =>
        match isEmptyFrom result1 0 input.NumRows with
        | .panicked => .panicked
        | .ret isEmpty =>
          if isEmpty then
            .ret (some (errors.New "Session current insert values is nil"), result1)
          else
            .ret (none, result1) := by
  obtain ⟨h0, hlt, -⟩ := sliceIndex_some _ _ _ harg
  have hnot : ¬ b.offset ≥ (b.args.length : Int) := by omega
  simp only [builtinValuesIntSig.vecEvalInt, h, hnot, harg]
  simp

/-- A successful `vecEvalInt` is outside an insert statement, or follows a successful
evaluation of the in-range `args[offset]` that left a row that is not null. -/
theorem vecEvalInt_success_cases (b : builtinValuesIntSig) (input : Chunk)
    (result out : Column) (hok : b.vecEvalInt input result = .ret (none, out)) :
    b.ctx.GetSessionVars.StmtCtx.InInsertStmt = false ∨
      (b.ctx.GetSessionVars.StmtCtx.InInsertStmt = true ∧
        b.offset < (b.args.length : Int) ∧
        ∃ arg, sliceIndex b.args b.offset = some arg ∧
          arg.VecEvalString b.ctx input (result.ResizeInt64 input.NumRows true) =
            (out, none) ∧
          ∃ i, i < input.NumRows ∧ out.IsNull i = some false) := by
  cases hins : b.ctx.GetSessionVars.StmtCtx.InInsertStmt with
  | false => exact Or.inl rfl
  | true =>
    right
    refine ⟨rfl, ?_⟩
    by_cases hoff : b.offset ≥ (b.args.length : Int)
    · simp [builtinValuesIntSig.vecEvalInt, hins, hoff] at hok
    · refine ⟨by omega, ?_⟩
      cases harg : sliceIndex b.args b.offset with
      | none => simp [builtinValuesIntSig.vecEvalInt, hins, hoff, harg] at hok
      | some arg =>
        refine ⟨arg, rfl, ?_⟩
        rw [vecEvalInt_in_range b input result arg hins harg] at hok
        rcases heval : arg.VecEvalString b.ctx input
            (result.ResizeInt64 input.NumRows true) with ⟨result1, err⟩
        rw [heval] at hok
        cases err with
        | some e => simp at hok
        | none =>
          simp only [] at hok
          cases hscan : isEmptyFrom result1 0 input.NumRows with
          | panicked => simp [hscan] at hok
          | ret v =>
            cases v with
            | true => simp [hscan] at hok
            | false =>
              simp [hscan] at hok
              subst hok
              refine ⟨rfl, ?_⟩
              simpa using exists_of_isEmptyFrom_false result1 input.NumRows 0 hscan

/-! ## Error propagation, the three-way split and the offset check -/

/-- C15. In an insert statement with the offset in range (so that `args[offset]` is
`arg`), an error returned by the batch evaluation of `arg` is what `vecEvalInt`
returns: the same error value, neither wrapped nor replaced by the absent-values
error. -/
theorem vecEvalInt_propagates_error (b : builtinValuesIntSig) (input : Chunk)
    (result : Column) (arg : Expression) (result1 : Column) (err : Error)
    (h : b.ctx.GetSessionVars.StmtCtx.InInsertStmt = true)
    (harg : sliceIndex b.args b.offset = some arg)
    (heval : arg.VecEvalString b.ctx input (result.ResizeInt64 input.NumRows true) =
      (result1, some err)) :
    b.vecEvalInt input result = .ret (some err, result1) := by
  rw [vecEvalInt_in_range b input result arg h harg, heval]

/-- C16. Three-way split: `vecEvalInt` returns `nil` exactly when the statement is
not an insert statement, or it is one, the offset is less than `len(args)`, the
evaluation of `args[offset]` succeeds and some result row is not null.  Outside an
insert statement the offset is not looked at, and inside one an offset at or beyond
`len(args)` is never reported as absent values. -/
theorem vecEvalInt_success_iff (b : builtinValuesIntSig) (input : Chunk)
    (result : Column) :
    ((∃ out, b.vecEvalInt input result = .ret (none, out)) ↔
        (b.ctx.GetSessionVars.StmtCtx.InInsertStmt = false ∨
          (b.ctx.GetSessionVars.StmtCtx.InInsertStmt = true ∧
            b.offset < (b.args.length : Int) ∧
            ∃ arg result1, sliceIndex b.args b.offset = some arg ∧
              arg.VecEvalString b.ctx input (result.ResizeInt64 input.NumRows true) =
                (result1, none) ∧
              ∃ i, i < input.NumRows ∧ result1.IsNull i = some false))) ∧
      (b.ctx.GetSessionVars.StmtCtx.InInsertStmt = false →
        b.vecEvalInt input result = .ret (none, result.ResizeInt64 input.NumRows true)) ∧
      (b.ctx.GetSessionVars.StmtCtx.InInsertStmt = true →
        b.offset ≥ (b.args.length : Int) →
        ∀ out, b.vecEvalInt input result ≠
          .ret (some (errors.New "Session current insert values is nil"), out)) := by
  refine ⟨⟨?_, ?_⟩, ?_, ?_⟩
  · rintro ⟨out, hok⟩
    rcases vecEvalInt_success_cases b input result out hok with h | ⟨h, hlt, arg, ha, he, hi⟩
    · exact Or.inl h
    · exact Or.inr ⟨h, hlt, arg, out, ha, he, hi⟩
  · rintro (h | ⟨h, -, arg, result1, harg, heval, hex⟩)
    · exact ⟨result.ResizeInt64 input.NumRows true,
        by simp [builtinValuesIntSig.vecEvalInt, h]⟩
    · refine ⟨result1, ?_⟩
      have hfalse := isEmptyFrom_false_of_exists result1 input.NumRows 0
        (by simpa using hex)
      rw [vecEvalInt_in_range b input result arg h harg, heval]
      simp [hfalse]
  · intro h
    simp [builtinValuesIntSig.vecEvalInt, h]
  · intro h hoff out hcontra
    simp only [builtinValuesIntSig.vecEvalInt, h, hoff] at hcontra
    simp at hcontra
    exact Errorf_offset_ne_nil _ _ hcontra.1

/-- C17 (the code at a failing input). With one integer argument at offset 0 in an
insert statement, the integer batch evaluation of the argument would fill two rows
with `7`, yet `vecEvalInt` returns the error of the argument's string batch
evaluation: it invokes `VecEvalString`, not `VecEvalInt`. -/
theorem vecEvalInt_invokes_VecEvalString :
    intOnlyArg.VecEvalInt (ctxInsert true) ⟨2, []⟩ (staleColumn.ResizeInt64 2 true) =
        (⟨2, [false, false], [7, 7]⟩, none) ∧
      builtinValuesIntSig.vecEvalInt ⟨⟨ctxInsert true, [intOnlyArg]⟩, 0⟩ ⟨2, []⟩
          staleColumn =
        .ret (some ⟨"not a string expression"⟩, ⟨2, [true, true], [9, 9]⟩) := by
  constructor
  · decide
  · decide

/-- C18 (counterexample). With offset `-1` and one argument the check
`offset >= len(args)` does not fire although `0 <= offset` fails: `args[-1]` is out
of range and the call panics. -/
theorem vecEvalInt_negative_offset_unchecked :
    ¬ (¬ ((-1 : Int) ≥ (([sevenArg] : List Expression).length : Int)) →
        0 ≤ (-1 : Int) ∧ (-1 : Int) < (([sevenArg] : List Expression).length : Int)) ∧
      (sliceIndex [sevenArg] (-1)).isNone = true ∧
      builtinValuesIntSig.vecEvalInt ⟨⟨ctxInsert true, [sevenArg]⟩, -1⟩ ⟨2, []⟩
          staleColumn = .panicked := by
  refine ⟨by decide, by decide, by decide⟩

/-- C18 (amended). For a non-negative offset, in an insert statement `vecEvalInt`
never indexes `args` out of range.  When the check `offset >= len(args)` fires the
call returns the offset-mismatch error without indexing `args`; when it does not
fire, `0 <= offset < len(args)` holds, `args[offset]` exists and the call goes on
with the batch evaluation of that argument and the null scan.  With an empty
argument list the check fires for every non-negative offset. -/
theorem offset_check_index_safe (b : builtinValuesIntSig) (input : Chunk)
    (result : Column) (h : b.ctx.GetSessionVars.StmtCtx.InInsertStmt = true)
    (h0 : 0 ≤ b.offset) :
    (b.offset ≥ (b.args.length : Int) →
        b.vecEvalInt input result =
          .ret (some (errors.Errorf
            "Session current insert values len %d and column\x27s offset %v don\x27t match"
            [(b.args.length : Int), b.offset]), result.ResizeInt64 input.NumRows true)) ∧
      (¬ b.offset ≥ (b.args.length : Int) →
        0 ≤ b.offset ∧ b.offset < (b.args.length : Int) ∧
          ∃ arg, sliceIndex b.args b.offset = some arg ∧
            b.vecEvalInt input result =
              match arg.VecEvalString b.ctx input
                  (result.ResizeInt64 input.NumRows true) with
              | (result1, some err) => .ret (some err, result1)
              | (result1, none) =>
                match isEmptyFrom result1 0 input.NumRows with
                | .panicked => .panicked
                | .ret isEmpty =>
                  if isEmpty then
                    .ret (some (errors.New "Session current insert values is nil"),
                      result1)
                  else
                    .ret (none, result1)) ∧
      (b.args = [] →
        b.vecEvalInt input result =
          .ret (some (errors.Errorf
            "Session current insert values len %d and column\x27s offset %v don\x27t match"
            [(b.args.length : Int), b.offset]), result.ResizeInt64 input.NumRows true)) := by
  have hfire : b.offset ≥ (b.args.length : Int) →
      b.vecEvalInt input result =
        .ret (some (errors.Errorf
          "Session current insert values len %d and column\x27s offset %v don\x27t match"
          [(b.args.length : Int), b.offset]), result.ResizeInt64 input.NumRows true) := by
    intro hoff
    simp [builtinValuesIntSig.vecEvalInt, h, hoff]
  refine ⟨hfire, ?_, ?_⟩
  · intro hcheck
    have hlt : b.offset.toNat < b.args.length := by omega
    have hneg : ¬ b.offset < 0 := by omega
    have harg : sliceIndex b.args b.offset = some (b.args.get ⟨b.offset.toNat, hlt⟩) := by
      simp [sliceIndex, hneg, List.getElem?_eq_getElem hlt]
    exact ⟨h0, by omega, b.args.get ⟨b.offset.toNat, hlt⟩, harg,
      vecEvalInt_in_range b input result _ h harg⟩
  · intro hnil
    apply hfire
    simp [hnil, h0]

/-- C19. Empty batch: in an insert statement with `args[offset]` in range and
evaluating without error, `vecEvalInt` on a batch of 0 rows returns the error
"Session current insert values is nil"; in an insert statement it never returns
`nil` on an empty batch, whereas outside one it returns `nil` with a 0-row column. -/
theorem vecEvalInt_empty_batch (b : builtinValuesIntSig) (input : Chunk)
    (result : Column) (hn : input.NumRows = 0) :
    (b.ctx.GetSessionVars.StmtCtx.InInsertStmt = true →
        ∀ arg result1, sliceIndex b.args b.offset = some arg →
          arg.VecEvalString b.ctx input (result.ResizeInt64 0 true) = (result1, none) →
          b.vecEvalInt input result =
            .ret (some (errors.New "Session current insert values is nil"), result1)) ∧
      (b.ctx.GetSessionVars.StmtCtx.InInsertStmt = true →
        ∀ out, b.vecEvalInt input result ≠ .ret (none, out)) ∧
      (b.ctx.GetSessionVars.StmtCtx.InInsertStmt = false →
        b.vecEvalInt input result = .ret (none, result.ResizeInt64 0 true) ∧
          (result.ResizeInt64 0 true).length = 0 ∧
          (result.ResizeInt64 0 true).nullBitmap = []) := by
  refine ⟨?_, ?_, ?_⟩
  · intro h arg result1 harg heval
    rw [vecEvalInt_in_range b input result arg h harg, hn, heval]
    simp [isEmptyFrom]
  · intro h out hok
    rcases vecEvalInt_success_cases b input result out hok with h1 | ⟨-, -, -, -, -, i, hi, -⟩
    · rw [h] at h1
      cases h1
    · omega
  · intro h
    refine ⟨?_, rfl, ?_⟩
    · simp [builtinValuesIntSig.vecEvalInt, h, hn]
    · simp [Column.ResizeInt64]

/-- Witness of C15: the failing argument's error comes back as it is. -/
theorem vecEvalInt_propagates_error_witness :
    builtinValuesIntSig.vecEvalInt ⟨⟨ctxInsert true, [sevenArg, failingArg]⟩, 1⟩ ⟨2, []⟩
        staleColumn =
      .ret (some ⟨"evaluation failed"⟩, ⟨2, [true, true], [9, 9]⟩) :=
  vecEvalInt_propagates_error ⟨⟨ctxInsert true, [sevenArg, failingArg]⟩, 1⟩ ⟨2, []⟩
    staleColumn failingArg ⟨2, [true, true], [9, 9]⟩ ⟨"evaluation failed"⟩ rfl rfl rfl

/-- Witness of C16: outside an insert statement an out-of-range offset still gives
success. -/
theorem vecEvalInt_success_iff_witness :
    (ctxInsert false).GetSessionVars.StmtCtx.InInsertStmt = false ∧
      ∃ out, builtinValuesIntSig.vecEvalInt ⟨⟨ctxInsert false, [sevenArg]⟩, 3⟩ ⟨2, []⟩
        staleColumn = .ret (none, out) :=
  ⟨rfl, (vecEvalInt_success_iff ⟨⟨ctxInsert false, [sevenArg]⟩, 3⟩ ⟨2, []⟩
    staleColumn).1.2 (Or.inl rfl)⟩

/-- Witness of C18 (amended): in an insert statement with two arguments, offset 1
passes the check, names the second argument, and the call goes on with it; offset 2,
the boundary, fires the check and gives the offset-mismatch error. -/
theorem offset_check_index_safe_witness :
    ((ctxInsert true).GetSessionVars.StmtCtx.InInsertStmt = true ∧ (0 : Int) ≤ 1 ∧
        ¬ ((1 : Int) ≥ (([sevenArg, failingArg] : List Expression).length : Int)) ∧
        (2 : Int) ≥ (([sevenArg, failingArg] : List Expression).length : Int)) ∧
      ((0 : Int) ≤ 1 ∧
        (1 : Int) < (([sevenArg, failingArg] : List Expression).length : Int) ∧
        ∃ arg, sliceIndex [sevenArg, failingArg] 1 = some arg ∧
          builtinValuesIntSig.vecEvalInt ⟨⟨ctxInsert true, [sevenArg, failingArg]⟩, 1⟩
              ⟨2, []⟩ staleColumn =
            match arg.VecEvalString (ctxInsert true) ⟨2, []⟩
                (staleColumn.ResizeInt64 2 true) with
            | (result1, some err) => .ret (some err, result1)
            | (result1, none) =>
              match isEmptyFrom result1 0 2 with
              | .panicked => .panicked
              | .ret isEmpty =>
                if isEmpty then
                  .ret (some (errors.New "Session current insert values is nil"),
                    result1)
                else
                  .ret (none, result1)) ∧
      builtinValuesIntSig.vecEvalInt ⟨⟨ctxInsert true, [sevenArg, failingArg]⟩, 2⟩
          ⟨2, []⟩ staleColumn =
        .ret (some
          ⟨"Session current insert values len 2 and column\x27s offset 2 don\x27t match"⟩,
          ⟨2, [true, true], [9, 9]⟩) :=
  ⟨⟨rfl, by decide, by decide, by decide⟩,
    (offset_check_index_safe ⟨⟨ctxInsert true, [sevenArg, failingArg]⟩, 1⟩ ⟨2, []⟩
      staleColumn rfl (by decide)).2.1 (by decide),
    ((offset_check_index_safe ⟨⟨ctxInsert true, [sevenArg, failingArg]⟩, 2⟩ ⟨2, []⟩
      staleColumn rfl (by decide)).1 (by decide)).trans (by decide)⟩

/-- Witness of C19: an empty batch in an insert statement gives the absent-values
error. -/
theorem vecEvalInt_empty_batch_witness :
    (⟨0, []⟩ : Chunk).NumRows = 0 ∧
      builtinValuesIntSig.vecEvalInt ⟨⟨ctxInsert true, [sevenArg]⟩, 0⟩ ⟨0, []⟩
          staleColumn =
        .ret (some ⟨"Session current insert values is nil"⟩, ⟨0, [], []⟩) :=
  ⟨rfl, (vecEvalInt_empty_batch ⟨⟨ctxInsert true, [sevenArg]⟩, 0⟩ ⟨0, []⟩ staleColumn
    rfl).1 rfl sevenArg ⟨0, [], []⟩ rfl rfl⟩

end expression
